import Mathlib

/-!
Shallow embedding of the carbonAwareHome Home Assistant integration
(custom_components/carbonAwareHome: __init__.py, engine.py, provider.py,
sensor.py), together with theorems settling the frozen claims about it.

Modelling conventions:
* Python `datetime` values are UTC epoch seconds (ℤ); `timedelta(minutes=m)`
  is `m * 60` seconds, and `datetime.hour` of a UTC datetime is `utcHour`.
* The Home Assistant local timezone conversion `dt_util.as_local` is modelled
  by an explicit UTC-offset function `off : ℤ → ℤ` giving the offset in
  seconds at a given instant; the local civil hour is `localHour off ts`.
* Python floats are modelled as rationals (ℚ); `round(x, 2)` is `round2`
  (Python rounds floats half-to-even; exact ties at the third decimal are
  immaterial to every claim below, so Mathlib integer rounding is used).
* Strings fed to `parse_hours` are modelled as `List Char`;
  `str.split` on a dash is `splitOnDash`, `int(...)` is `pyInt` (optional
  surrounding whitespace, optional sign, decimal digits; numeric
  underscores are not modelled).
* `None`-able Python values are `Option`s.  The JSON payload of the
  energy-charts API is an `ECPayload` record: a missing key is the default
  `[]`, a JSON null inside an array is `none`, and the three arrays need
  not have equal lengths.
* `list.sort` (Python's Timsort, a stable sort) is modelled by the stable
  insertion sort `sortByTs`.
-/

/-- Python round(x, 2) on a value modelled as a rational. -/
def round2 (q : ℚ) : ℚ := (round (q * 100) : ℤ) / 100

/-- Hour field of a UTC datetime given as epoch seconds (engine.py uses
`ts.hour` directly on the UTC timestamps produced by the parser). -/
def utcHour (ts : ℤ) : ℤ := (ts.emod 86400) / 3600

/-- Hour field of `dt_util.as_local(ts)`: the local civil hour under the
UTC-offset function `off` (seconds of offset at a given instant). -/
def localHour (off : ℤ → ℤ) (ts : ℤ) : ℤ := ((ts + off ts).emod 86400) / 3600

/-- TimePoint from __init__.py / engine.py: a timestamp (UTC epoch seconds)
with a carbon intensity value. -/
structure TimePoint where
  ts : ℤ
  intensity : ℚ
deriving DecidableEq, Repr

/-- Energy-charts co2eq payload: parallel arrays `unix_seconds`, `co2eq`
(actual values), `co2eq_forecast`, entries of the last two possibly null. -/
structure ECPayload where
  unix_seconds : List ℤ
  co2eq : List (Option ℚ)
  co2eq_forecast : List (Option ℚ)
deriving DecidableEq, Repr

/-- Value selection shared by parse_energycharts_series and the sensor's
interpolation step: `actual[i]` if in range and non-null, else
`forecast[i]` if in range and non-null, else nothing. -/
def valueAt (act fc : List (Option ℚ)) (i : ℕ) : Option ℚ :=
  match act.getD i none with
  | some v => some v
  | none => fc.getD i none

/-- Stable insertion of a point into a ts-sorted list (keeps an equal-ts
point after the ones already present, as a stable sort does). -/
def insertByTs (p : TimePoint) : List TimePoint → List TimePoint
  | [] => [p]
  | q :: rest => if p.ts ≤ q.ts then p :: q :: rest else q :: insertByTs p rest

/-- Stable sort by timestamp, modelling Python's stable `list.sort`. -/
def sortByTs : List TimePoint → List TimePoint
  | [] => []
  | p :: rest => insertByTs p (sortByTs rest)

/-- The points accumulated by the loop of parse_energycharts_series, in
input order: one point per index of `unix_seconds` that has a value. -/
def rawPoints (j : ECPayload) : List TimePoint :=
  (List.range j.unix_seconds.length).filterMap (fun i =>
    (valueAt j.co2eq j.co2eq_forecast i).map
      (fun v => TimePoint.mk (j.unix_seconds.getD i 0) v))

/-- parse_energycharts_series from __init__.py / engine.py: build one point
per valued index, then sort ascending by timestamp. -/
def parse_energycharts_series (j : ECPayload) : List TimePoint :=
  sortByTs (rawPoints j)

/-- Trim of surrounding whitespace, as Python `int(str)` performs. -/
def pyTrim (l : List Char) : List Char :=
  ((l.dropWhile Char.isWhitespace).reverse.dropWhile Char.isWhitespace).reverse

/-- Decimal digits to a natural number. -/
def digitsToNat (l : List Char) : ℕ :=
  l.foldl (fun a c => a * 10 + (c.toNat - 48)) 0

/-- Python `int(s)` on a string modelled as a character list: optional
surrounding whitespace, optional single sign, then one or more decimal
digits; `none` models the ValueError raised otherwise. -/
def pyInt (s : List Char) : Option ℤ :=
  match pyTrim s with
  | [] => none
  | c :: rest =>
    if c = '-' then
      if rest ≠ [] ∧ rest.all Char.isDigit then some (-(digitsToNat rest : ℤ)) else none
    else if c = '+' then
      if rest ≠ [] ∧ rest.all Char.isDigit then some ((digitsToNat rest : ℤ)) else none
    else
      if (c :: rest).all Char.isDigit then some ((digitsToNat (c :: rest) : ℤ)) else none

/-- Python `s.split` on a dash: every occurrence splits, empty parts kept. -/
def splitOnDash : List Char → List (List Char)
  | [] => [[]]
  | c :: rest =>
    let r := splitOnDash rest
    if c = '-' then [] :: r
    else
      match r with
      | h :: t => (c :: h) :: t
      | [] => [[c]]

/-- parse_hours from __init__.py: `None`/empty input gives no restriction;
otherwise split on a dash into exactly two int-parsable parts, any failure
(caught exception in the source) giving no restriction.  The diagnostics
warning emitted on failure is a side effect not modelled here. -/
def parse_hours (hours_str : Option (List Char)) : Option (ℤ × ℤ) :=
  match hours_str with
  | none => none
  | some s =>
    if s = [] then none
    else
      match splitOnDash s with
      | [a, b] =>
        match pyInt a, pyInt b with
        | some x, some y => some (x, y)
        | _, _ => none
      | _ => none

/-- within_allowed_hours from __init__.py: no restriction accepts
everything; otherwise the half-open hour test against the hour of
`as_local(ts_utc)`. -/
def within_allowed_hours (ts_utc : ℤ) (allowed_hours : Option (ℤ × ℤ))
    (off : ℤ → ℤ) : Bool :=
  match allowed_hours with
  | none => true
  | some (start_h, end_h) =>
    decide (start_h ≤ localHour off ts_utc) && decide (localHour off ts_utc < end_h)

/-- within_hours, the nested helper of engine.py's best_start_from_points:
the same half-open hour test, but against `ts.hour` of the timestamp as
given (UTC for the UTC timestamps produced by the parser). -/
def within_hours (ts : ℤ) (hours : Option (ℤ × ℤ)) : Bool :=
  match hours with
  | none => true
  | some (start_h, end_h) =>
    decide (start_h ≤ utcHour ts) && decide (utcHour ts < end_h)

/-- The candidate set of best_start_from_points: points with
`window_start <= ts < window_end`, in input order. -/
def candidatesOf (points : List TimePoint) (window_start window_end : ℤ) :
    List TimePoint :=
  points.filter (fun p => decide (window_start ≤ p.ts) && decide (p.ts < window_end))

/-- The candidate scan shared verbatim by __init__.py and engine.py
(they differ only in the hour filter, passed here as `hourOk`):
break once `t0 + runtime > window_end`; skip filtered-out hours; average
the sub-window starting at the candidate; replace the best only on strict
improvement.  The accumulator holds `(best_avg, best_start)`. -/
def bestLoop (hourOk : ℤ → Bool) (we rt : ℤ) :
    List TimePoint → Option (ℚ × ℤ) → Option (ℚ × ℤ)
  | [], best => best
  | p :: rest, best =>
    if p.ts + rt > we then best
    else if !(hourOk p.ts) then bestLoop hourOk we rt rest best
    else
      let vals := ((p :: rest).filter (fun q => decide (q.ts < p.ts + rt))).map
        TimePoint.intensity
      if vals.isEmpty then bestLoop hourOk we rt rest best
      else
        let avg := vals.sum / (vals.length : ℚ)
        match best with
        | none => bestLoop hourOk we rt rest (some (avg, p.ts))
        | some (ba, bs) =>
          if avg < ba then bestLoop hourOk we rt rest (some (avg, p.ts))
          else bestLoop hourOk we rt rest (some (ba, bs))

/-- Result of __init__.py's best_start_from_points. -/
inductive BestStartResult where
  | noData
  | noCandidate
  | ok (best_start best_end : ℤ) (expected_avg_intensity : ℚ)
deriving DecidableEq, Repr

/-- Status string of a BestStartResult, as placed in the returned dict. -/
def statusOf : BestStartResult → String
  | .noData => "No Data"
  | .noCandidate => "No Candidate"
  | .ok _ _ _ => "OK"

/-- best_start_from_points from __init__.py (the variant wired into the
services): filter to the window, scan with the local-hour filter, and
report the recorded best. -/
def best_start_from_points (points : List TimePoint)
    (window_start_utc window_end_utc : ℤ) (runtime_minutes : ℤ)
    (allowed_hours : Option (ℤ × ℤ)) (off : ℤ → ℤ) : BestStartResult :=
  let runtime := runtime_minutes * 60
  let candidates := candidatesOf points window_start_utc window_end_utc
  if candidates.isEmpty then .noData
  else
    match bestLoop (fun t => within_allowed_hours t allowed_hours off)
        window_end_utc runtime candidates none with
    | none => .noCandidate
    | some (ba, bs) => .ok bs (bs + runtime) ba

/-- Result of engine.py's best_start_from_points (adds the optional
min-gain downgrade). -/
inductive EngineBestResult where
  | noData
  | noCandidate
  | gainTooLow (best_start : ℤ) (expected_avg_intensity : ℚ)
  | ok (best_start best_end : ℤ) (expected_avg_intensity : ℚ)
deriving DecidableEq, Repr

/-- best_start_from_points from engine.py: identical scan but with the
raw-hour filter `within_hours`, plus the optional min_gain check. -/
def engine_best_start_from_points (points : List TimePoint)
    (window_start window_end : ℤ) (runtime_minutes : ℤ)
    (allowed_hours : Option (ℤ × ℤ))
    (min_gain now_intensity : Option ℚ) : EngineBestResult :=
  let runtime := runtime_minutes * 60
  let candidates := candidatesOf points window_start window_end
  if candidates.isEmpty then .noData
  else
    match bestLoop (fun t => within_hours t allowed_hours)
        window_end runtime candidates none with
    | none => .noCandidate
    | some (ba, bs) =>
      match min_gain, now_intensity with
      | some g, some ni =>
        if ni - ba < g then .gainTooLow bs ba else .ok bs (bs + runtime) ba
      | _, _ => .ok bs (bs + runtime) ba

/-- Proof-side view of the scan: the (avg, start) pairs of the candidates
the loop actually evaluates and records against, in order. -/
def evalList (hourOk : ℤ → Bool) (we rt : ℤ) : List TimePoint → List (ℚ × ℤ)
  | [] => []
  | p :: rest =>
    if p.ts + rt > we then []
    else if !(hourOk p.ts) then evalList hourOk we rt rest
    else
      let vals := ((p :: rest).filter (fun q => decide (q.ts < p.ts + rt))).map
        TimePoint.intensity
      if vals.isEmpty then evalList hourOk we rt rest
      else (vals.sum / (vals.length : ℚ), p.ts) :: evalList hourOk we rt rest

/-- Strict-improvement fold over evaluated candidates; mirrors the
`best_avg is None or avg < best_avg` update of the source loop. -/
def foldBest : List (ℚ × ℤ) → Option (ℚ × ℤ) → Option (ℚ × ℤ)
  | [], best => best
  | x :: xs, best =>
    match best with
    | none => foldBest xs (some x)
    | some (ba, bs) =>
      if x.1 < ba then foldBest xs (some x) else foldBest xs (some (ba, bs))

/-- The evaluated candidates of a best-start request made through
__init__.py's best_start_from_points. -/
def evalCandidates (points : List TimePoint) (ws we rtm : ℤ)
    (allowed_hours : Option (ℤ × ℤ)) (off : ℤ → ℤ) : List (ℚ × ℤ) :=
  evalList (fun t => within_allowed_hours t allowed_hours off) we (rtm * 60)
    (candidatesOf points ws we)

/-- actual_at from sensor.py's _pick_best_value: the actual value at an
index if in range and non-null, rounded to 2 decimals. -/
def actual_at (act : List (Option ℚ)) (idx : ℕ) : Option ℚ :=
  (act.getD idx none).map round2

/-- forecast_at from sensor.py's _pick_best_value. -/
def forecast_at (fc : List (Option ℚ)) (idx : ℕ) : Option ℚ :=
  (fc.getD idx none).map round2

/-- One iteration of the interpolation loop of _pick_best_value at index
`i`: both neighbouring values usable and `t0 <= now_ts < t1` yields the
rounded linear interpolation tagged interpolated. -/
def interpTry (us : List ℤ) (act fc : List (Option ℚ)) (now : ℤ) (i : ℕ) :
    Option (ℚ × ℤ × String × ℕ) :=
  match valueAt act fc i, valueAt act fc (i + 1) with
  | some v0, some v1 =>
    let t0 := us.getD i 0
    let t1 := us.getD (i + 1) 0
    if t0 ≤ now ∧ now < t1 then
      some (round2 (v0 + (v1 - v0) * (((now : ℚ) - (t0 : ℚ)) / ((t1 : ℚ) - (t0 : ℚ)))),
        now, "interpolated", i)
    else none
  | _, _ => none

/-- The interpolation loop `for i in range(n - 1)` of _pick_best_value;
`fuel` is the number of indices still to examine starting at `i`. -/
def interpAux (us : List ℤ) (act fc : List (Option ℚ)) (now : ℤ) :
    ℕ → ℕ → Option (ℚ × ℤ × String × ℕ)
  | 0, _ => none
  | fuel + 1, i =>
    match interpTry us act fc now i with
    | some r => some r
    | none => interpAux us act fc now fuel (i + 1)

/-- Binary search step of Python's bisect_right; `fuel` bounds the
iteration count (the interval shrinks each step, so `hi - lo` suffices). -/
def bisectGo (a : List ℤ) (x : ℤ) : ℕ → ℕ → ℕ → ℕ
  | 0, lo, _ => lo
  | fuel + 1, lo, hi =>
    if lo < hi then
      let mid := (lo + hi) / 2
      if x < a.getD mid 0 then bisectGo a x fuel lo mid
      else bisectGo a x fuel (mid + 1) hi
    else lo

/-- Python's bisect.bisect_right over the whole list. -/
def bisect_right (a : List ℤ) (x : ℤ) : ℕ :=
  bisectGo a x a.length 0 a.length

/-- Backward scan `for j in range(i, -1, -1)` of _pick_best_value, looking
for the nearest actual value at or before the start index. -/
def backActual (act : List (Option ℚ)) (us : List ℤ) :
    ℕ → Option (ℚ × ℤ × String × ℕ)
  | 0 =>
    match actual_at act 0 with
    | some v => some (v, us.getD 0 0, "actual", 0)
    | none => none
  | j + 1 =>
    match actual_at act (j + 1) with
    | some v => some (v, us.getD (j + 1) 0, "actual", j + 1)
    | none => backActual act us j

/-- Forward scan for a forecast value starting at index `j`, examining
`fuel` indices (`for j in range(start, n)` in the source). -/
def fwdForecast (fc : List (Option ℚ)) (us : List ℤ) :
    ℕ → ℕ → Option (ℚ × ℤ × String × ℕ)
  | 0, _ => none
  | fuel + 1, j =>
    match forecast_at fc j with
    | some v => some (v, us.getD j 0, "forecast", j)
    | none => fwdForecast fc us fuel (j + 1)

/-- Final backward scan `for j in range(n - 1, -1, -1)` of
_pick_best_value, preferring actual over forecast at each index. -/
def lastScan (act fc : List (Option ℚ)) (us : List ℤ) :
    ℕ → Option (ℚ × ℤ × String × ℕ)
  | 0 =>
    match actual_at act 0 with
    | some v => some (v, us.getD 0 0, "actual", 0)
    | none =>
      match forecast_at fc 0 with
      | some v => some (v, us.getD 0 0, "forecast", 0)
      | none => none
  | j + 1 =>
    match actual_at act (j + 1) with
    | some v => some (v, us.getD (j + 1) 0, "actual", j + 1)
    | none =>
      match forecast_at fc (j + 1) with
      | some v => some (v, us.getD (j + 1) 0, "forecast", j + 1)
      | none => lastScan act fc us j

/-- _pick_best_value from sensor.py, returning (value, ts_used, source,
index) or nothing.  `i` is `bisect_right(unix_seconds, now_ts) - 1`;
`max(i, 0)` is `Int.toNat i`. -/
def pick_best_value (us : List ℤ) (act fc : List (Option ℚ)) (now : ℤ) :
    Option (ℚ × ℤ × String × ℕ) :=
  if us.length = 0 then none
  else
    match interpAux us act fc now (us.length - 1) 0 with
    | some r => some r
    | none =>
      let i : ℤ := (bisect_right us now : ℤ) - 1
      match (if 0 ≤ i then backActual act us i.toNat else none) with
      | some r => some r
      | none =>
        match fwdForecast fc us (us.length - i.toNat) i.toNat with
        | some r => some r
        | none =>
          match (if i < 0 then fwdForecast fc us us.length 0 else none) with
          | some r => some r
          | none => lastScan act fc us (us.length - 1)

/-- Outcome of one network attempt of
FraunhoferEnergyChartsProvider.fetch_co2eq_series: an HTTP response with a
status code and (for status 200) a JSON body, or a timeout / transport
exception. -/
inductive FetchOutcome where
  | response (status : ℕ) (body : ECPayload)
  | timeout
deriving DecidableEq, Repr

/-- Observable behaviour of one fetch_co2eq_series call: the returned
payload, the cache afterwards (payload paired with its fetch instant), the
asyncio.sleep backoff delays performed, and how many attempts were made. -/
structure FetchRun where
  result : Option ECPayload
  cache : Option (ECPayload × ℤ)
  sleeps : List ℕ
  attempts : ℕ
deriving DecidableEq, Repr

/-- The attempt loop of provider.py's fetch_co2eq_series:
`enumerate(list(API_BACKOFF_SECONDS) + [None], start=1)` pairs each attempt
number with the backoff slept after a retryable failure (none for the last
attempt).  `o` gives the outcome of each numbered attempt. -/
def fetchGo (o : ℕ → FetchOutcome) (now : ℤ) (c : Option (ECPayload × ℤ)) :
    List (ℕ × Option ℕ) → FetchRun
  | [] => { result := none, cache := c, sleeps := [], attempts := 0 }
  | (att, bo) :: rest =>
    match o att with
    | .response s d =>
      if s ≠ 200 then
        if 400 ≤ s ∧ s < 500 then
          { result := none, cache := c, sleeps := [], attempts := 1 }
        else
          match bo with
          | some b =>
            let r := fetchGo o now c rest
            { result := r.result, cache := r.cache, sleeps := b :: r.sleeps,
              attempts := r.attempts + 1 }
          | none => { result := none, cache := c, sleeps := [], attempts := 1 }
      else
        { result := some d, cache := some (d, now), sleeps := [], attempts := 1 }
    | .timeout =>
      match bo with
      | some b =>
        let r := fetchGo o now c rest
        { result := r.result, cache := r.cache, sleeps := b :: r.sleeps,
          attempts := r.attempts + 1 }
      | none => { result := none, cache := c, sleeps := [], attempts := 1 }

/-- CACHE_MAX_AGE_SECONDS from provider.py. -/
def CACHE_MAX_AGE_SECONDS : ℤ := 3600

/-- The enumerated attempt schedule: API_BACKOFF_SECONDS = (5, 10, 15),
so 4 attempts total, the last with no backoff after it. -/
def attemptSchedule : List (ℕ × Option ℕ) :=
  [(1, some 5), (2, some 10), (3, some 15), (4, none)]

/-- fetch_co2eq_series from provider.py: serve the cache while fresh,
otherwise run the retry loop (which stores into the cache only on a 200
response). -/
def fetch_co2eq_series (o : ℕ → FetchOutcome) (now : ℤ)
    (c : Option (ECPayload × ℤ)) : FetchRun :=
  match c with
  | some (d, t) =>
    if now - t < CACHE_MAX_AGE_SECONDS then
      { result := some d, cache := c, sleeps := [], attempts := 0 }
    else fetchGo o now c attemptSchedule
  | none => fetchGo o now c attemptSchedule

/-- Outcome of BluehandsProvider.get_best_time as consumed by the fallback
paths: the optional best timestamp and value, and the status string of the
meta dict (the provider always sets one). -/
structure SecondaryOutcome where
  best_time : Option String
  best_value : Option ℚ
  meta_status : String
deriving DecidableEq, Repr

/-- Service response dict of handle_get_best_time_raw (__init__.py); the
`end` key is `endAt` here because `end` is a Lean keyword. -/
structure BestTimeResult where
  status : String
  source : String
  best_start : Option String
  avg_intensity : Option ℚ
  start : String
  endAt : String
  runtime_minutes : ℤ
  location : String
  fallback : Option String
deriving DecidableEq, Repr

/-- handle_get_best_time_raw from __init__.py, after request validation
(the MissingParam / InvalidDatetime early returns precede everything
modelled here): on a missing primary payload fall back to the Bluehands
provider; otherwise parse, optimize, and report the raw result whether or
not it is OK.  `iso` models datetime.isoformat. -/
def handle_get_best_time_raw (iso : ℤ → String) (off : ℤ → ℤ)
    (primary : Option ECPayload) (sec : SecondaryOutcome)
    (data_start_at data_end_at : String) (ws_utc we_utc : ℤ)
    (runtime : ℤ) (allowed_hours : Option (ℤ × ℤ)) (location : String) :
    BestTimeResult :=
  match primary with
  | none =>
    { status := sec.meta_status, source := "raw_fallback_api",
      best_start := sec.best_time, avg_intensity := sec.best_value,
      start := data_start_at, endAt := data_end_at,
      runtime_minutes := runtime, location := location,
      fallback := some ("api") }
  | some raw =>
    let points := parse_energycharts_series raw
    match best_start_from_points points ws_utc we_utc runtime allowed_hours off with
    | .ok bs _ avg =>
      { status := "OK", source := "raw", best_start := some (iso bs),
        avg_intensity := some avg, start := data_start_at, endAt := data_end_at,
        runtime_minutes := runtime, location := location, fallback := none }
    | r =>
      { status := statusOf r, source := "raw", best_start := none,
        avg_intensity := none, start := data_start_at, endAt := data_end_at,
        runtime_minutes := runtime, location := location, fallback := none }

/-- Attributes set on sensor.co2_intensity_forecast by
handle_get_forecast_raw.  Keys absent in a given branch are `none`
(`optimal_co2 = none` also models the literal NA the source stores when
the fallback value is missing). -/
structure ForecastAttrs where
  status : String
  source : String
  optimal_co2 : Option ℚ
  expected_avg_intensity : Option ℚ
  expectedRuntime : ℤ
  start : String
  endAt : String
  location : String
  fallback : Option String
deriving DecidableEq, Repr

/-- handle_get_forecast_raw from __init__.py: unparseable window datetimes
give an Error attribute set; a missing primary payload or a non-OK
optimizer result falls back to the Bluehands provider; an OK result is
reported from the raw path.  Returns the attribute set together with the
(best_time, best_value) pair the handler returns. -/
def handle_get_forecast_raw (iso : ℤ → String) (off : ℤ → ℤ)
    (primary : Option ECPayload) (sec : SecondaryOutcome)
    (data_start_at data_end_at : String) (ws we : Option ℤ)
    (runtime : ℤ) (allowed_hours : Option (ℤ × ℤ)) (location : String) :
    ForecastAttrs × Option String × Option ℚ :=
  match ws, we with
  | some ws_utc, some we_utc =>
    match primary with
    | none =>
      ({ status := sec.meta_status, source := "raw_fallback_api",
         optimal_co2 := sec.best_value, expected_avg_intensity := none,
         expectedRuntime := runtime, start := data_start_at,
         endAt := data_end_at, location := location,
         fallback := some ("api") }, sec.best_time, sec.best_value)
    | some raw =>
      let points := parse_energycharts_series raw
      match best_start_from_points points ws_utc we_utc runtime allowed_hours off with
      | .ok bs _ avg =>
        ({ status := "OK", source := "raw", optimal_co2 := none,
           expected_avg_intensity := some avg, expectedRuntime := runtime,
           start := data_start_at, endAt := data_end_at, location := location,
           fallback := none }, some (iso bs), some avg)
      | _ =>
        ({ status := sec.meta_status, source := "raw_fallback_api",
           optimal_co2 := sec.best_value, expected_avg_intensity := none,
           expectedRuntime := runtime, start := data_start_at,
           endAt := data_end_at, location := location,
           fallback := some ("api") }, sec.best_time, sec.best_value)
  | _, _ =>
    ({ status := "Error", source := "raw", optimal_co2 := none,
       expected_avg_intensity := none, expectedRuntime := runtime,
       start := data_start_at, endAt := data_end_at, location := location,
       fallback := none }, none, none)

/-- Whether a best-start result is OK (used to phrase the fallback
condition of the coordinator). -/
def isOkResult : BestStartResult → Bool
  | .ok _ _ _ => true
  | _ => false

/-!
Helper lemmas about the candidate scan.
-/

/-- Any best recorded by the scan satisfies `start + runtime <= window_end`,
because the scan breaks before evaluating any later candidate. -/
lemma bestLoop_start_le (hourOk : ℤ → Bool) (we rt : ℤ) :
    ∀ (l : List TimePoint) (acc : Option (ℚ × ℤ)),
      (∀ a s, acc = some (a, s) → s + rt ≤ we) →
      ∀ a s, bestLoop hourOk we rt l acc = some (a, s) → s + rt ≤ we := by
  intro l
  induction l with
  | nil => intro acc hacc a s h; exact hacc a s h
  | cons p rest ih =>
    intro acc hacc a s h
    simp only [bestLoop] at h
    split at h
    · exact hacc a s h
    split at h
    · exact ih acc hacc a s h
    split at h
    · exact ih acc hacc a s h
    rename_i hbreak hhour hvals
    have hple : p.ts + rt ≤ we := by omega
    rcases acc with _ | ⟨ba, bs⟩ <;> dsimp only at h
    · refine ih _ ?_ a s h
      intro a' s' hs'
      have hs2 : s' = p.ts := by cases hs'; rfl
      rw [hs2]; exact hple
    · split at h
      · refine ih _ ?_ a s h
        intro a' s' hs'
        have hs2 : s' = p.ts := by cases hs'; rfl
        rw [hs2]; exact hple
      · refine ih _ ?_ a s h
        intro a' s' hs'
        have hs2 : s' = bs := by cases hs'; rfl
        rw [hs2]; exact hacc ba bs rfl

/-- C1: for every list of samples, every window, every positive duration
and every optional allowed-hours filter, an OK result of
best_start_from_points (both the __init__.py variant and the engine.py
variant) has `best_start + duration <= window_end`. -/
theorem best_start_respects_window_end
    (points : List TimePoint) (ws we rtm : ℤ) (ah : Option (ℤ × ℤ))
    (off : ℤ → ℤ) (mg ni : Option ℚ) (hpos : 0 < rtm) :
    (∀ bs be avg, best_start_from_points points ws we rtm ah off = .ok bs be avg →
      bs + rtm * 60 ≤ we)
    ∧ (∀ bs be avg,
        engine_best_start_from_points points ws we rtm ah mg ni = .ok bs be avg →
      bs + rtm * 60 ≤ we) := by
  constructor
  · intro bs be avg h
    simp only [best_start_from_points] at h
    split at h
    · exact absurd h (by simp)
    cases hloop : bestLoop (fun t => within_allowed_hours t ah off) we (rtm * 60)
        (candidatesOf points ws we) none with
    | none =>
      rw [hloop] at h
      exact absurd h (by simp)
    | some pr =>
      obtain ⟨ba, bs2⟩ := pr
      rw [hloop] at h
      dsimp only at h
      cases h
      exact bestLoop_start_le _ _ _ _ none (by simp) _ _ hloop
  · intro bs be avg h
    simp only [engine_best_start_from_points] at h
    split at h
    · exact absurd h (by simp)
    cases hloop : bestLoop (fun t => within_hours t ah) we (rtm * 60)
        (candidatesOf points ws we) none with
    | none =>
      rw [hloop] at h
      exact absurd h (by simp)
    | some pr =>
      obtain ⟨ba, bs2⟩ := pr
      rw [hloop] at h
      dsimp only at h
      have hle := bestLoop_start_le _ _ _ _ none (by simp) _ _ hloop
      split at h
      · split at h
        · exact absurd h (by simp)
        · cases h; exact hle
      · cases h; exact hle

/-- Witness for best_start_respects_window_end at a concrete input. -/
theorem best_start_respects_window_end_witness : (0 : ℤ) + 1 * 60 ≤ 100 :=
  (best_start_respects_window_end [⟨0, 1⟩] 0 100 1 none (fun _ => 0) none none
    (by norm_num)).1 0 60 1
    (by norm_num [best_start_from_points, candidatesOf, bestLoop, within_allowed_hours])

/-- C4 counterexample: at 07:00 UTC with a +1h local offset the local civil
hour is 8, inside the 8-21 restriction, yet engine.py's within_hours filter
(which tests the timestamp's own UTC hour field) rejects the candidate, so
the accept-iff-local-hour-in-range claim fails for that filter. -/
theorem engine_within_hours_uses_utc_hour :
    ¬ (within_hours 25200 (some (8, 21)) = true ↔
        (8 ≤ localHour (fun _ => 3600) 25200 ∧
          localHour (fun _ => 3600) 25200 < 21)) := by decide

/-- C4 amended: the __init__.py filter within_allowed_hours accepts a
candidate exactly when `start_hour <= h < end_hour` for the local civil
hour `h`; the engine.py variant within_hours instead tests the timestamp's
own hour field, i.e. the UTC hour for the UTC timestamps the parser
produces.  An absent restriction accepts everything in both variants. -/
theorem allowed_hours_filters_characterization :
    ∀ (off : ℤ → ℤ) (ts s e : ℤ),
      (within_allowed_hours ts (some (s, e)) off = true ↔
        (s ≤ localHour off ts ∧ localHour off ts < e))
      ∧ (within_hours ts (some (s, e)) = true ↔
        (s ≤ utcHour ts ∧ utcHour ts < e))
      ∧ within_allowed_hours ts none off = true
      ∧ within_hours ts none = true := by
  intro off ts s e
  refine ⟨?_, ?_, rfl, rfl⟩ <;> simp [within_allowed_hours, within_hours]

/-- Witness for allowed_hours_filters_characterization at a concrete
input. -/
theorem allowed_hours_filters_witness :
    within_allowed_hours 25200 (some (8, 21)) (fun _ => 3600) = true :=
  (allowed_hours_filters_characterization (fun _ => 3600) 25200 8 21).1.mpr
    (by decide)

/-- C8 counterexample: parse_hours accepts the inverted range 21-8 and
constructs the restriction (21, 8) even though 21 < 8 fails, so the
only-constructible-with-start-below-end claim is false on the code. -/
theorem parse_hours_accepts_inverted_range :
    parse_hours (some ['2', '1', '-', '8']) = some (21, 8) ∧ ¬ ((21 : ℤ) < 8) := by
  decide

/-- C8 amended: parse_hours constructs a restriction from exactly the
nonempty inputs that split on a dash into two int-parsable parts, with no
range or ordering validation whatever (inverted and out-of-range pairs
are accepted); every other input degrades to no restriction (the source
logs a warning and returns None instead of raising). -/
theorem parse_hours_characterization :
    (∀ (h : Option (List Char)) (x y : ℤ),
      parse_hours h = some (x, y) ↔
        ∃ s a b, h = some s ∧ s ≠ [] ∧ splitOnDash s = [a, b] ∧
          pyInt a = some x ∧ pyInt b = some y)
    ∧ parse_hours (some ['2', '1', '-', '8']) = some (21, 8)
    ∧ parse_hours (some ['2', '5', '-', '9', '9']) = some (25, 99)
    ∧ parse_hours (some ['8', '-', '2', '1']) = some (8, 21)
    ∧ parse_hours none = none
    ∧ parse_hours (some []) = none
    ∧ parse_hours (some ['8', ':', '9']) = none := by
  refine ⟨?_, by decide, by decide, by decide, rfl, by decide, by decide⟩
  intro h x y
  constructor
  · intro hp
    match h with
    | none => simp [parse_hours] at hp
    | some s =>
      simp only [parse_hours] at hp
      split at hp
      · exact absurd hp (by simp)
      rename_i hs
      refine ⟨s, ?_⟩
      split at hp
      · rename_i a b hsplit
        match ha : pyInt a, hb : pyInt b with
        | some x', some y' =>
          rw [ha, hb] at hp
          dsimp only at hp
          cases hp
          exact ⟨a, b, rfl, hs, hsplit, ha, hb⟩
        | some x', none => rw [ha, hb] at hp; exact absurd hp (by simp)
        | none, some y' => rw [ha, hb] at hp; exact absurd hp (by simp)
        | none, none => rw [ha, hb] at hp; exact absurd hp (by simp)
      · exact absurd hp (by simp)
  · rintro ⟨s, a, b, rfl, hs, hsplit, ha, hb⟩
    simp [parse_hours, hs, hsplit, ha, hb]

/-- Witness for parse_hours_characterization at a concrete input. -/
theorem parse_hours_characterization_witness :
    parse_hours (some ['2', '1', '-', '8']) = some (21, 8) :=
  (parse_hours_characterization.1 (some ['2', '1', '-', '8']) 21 8).mpr
    ⟨['2', '1', '-', '8'], ['2', '1'], ['8'], rfl, by decide, by decide,
      by decide, by decide⟩

/-- C10: whenever the interpolation branch of _pick_best_value fires, its
guard `t0 <= now_ts < t1` forces `t0 < t1`, so the divisor `t1 - t0` is
non-zero — including on series with duplicate timestamps, for which the
guard simply never holds at the duplicated pair. -/
theorem interp_divisor_nonzero :
    ∀ (us : List ℤ) (act fc : List (Option ℚ)) (now : ℤ) (i : ℕ)
      (r : ℚ × ℤ × String × ℕ),
      interpTry us act fc now i = some r →
      us.getD (i + 1) 0 - us.getD i 0 ≠ 0 := by
  intro us act fc now i r h
  simp only [interpTry] at h
  split at h
  · split at h
    · rename_i hcond
      omega
    · exact absurd h (by simp)
  · exact absurd h (by simp)

/-- Witness for interp_divisor_nonzero at a concrete input. -/
theorem interp_divisor_nonzero_witness :
    ([0, 3600] : List ℤ).getD 1 0 - ([0, 3600] : List ℤ).getD 0 0 ≠ 0 :=
  interp_divisor_nonzero [0, 3600] [some 1, some 2] [] 0 0
    (1, 0, "interpolated", 0)
    (by norm_num [interpTry, valueAt, round2])

/-!
Helper lemmas about the parser's stable sort.
-/

lemma mem_insertByTs (p x : TimePoint) :
    ∀ l : List TimePoint, x ∈ insertByTs p l ↔ x = p ∨ x ∈ l := by
  intro l
  induction l with
  | nil => simp [insertByTs]
  | cons q rest ih =>
    simp only [insertByTs]
    split
    · simp only [List.mem_cons]
    · simp only [List.mem_cons, ih]
      tauto

lemma insertByTs_pairwise (p : TimePoint) :
    ∀ l : List TimePoint, l.Pairwise (fun a b => a.ts ≤ b.ts) →
      (insertByTs p l).Pairwise (fun a b => a.ts ≤ b.ts) := by
  intro l
  induction l with
  | nil => intro _; simp [insertByTs]
  | cons q rest ih =>
    intro hl
    rw [List.pairwise_cons] at hl
    obtain ⟨hq, hrest⟩ := hl
    simp only [insertByTs]
    split
    · rename_i hpq
      refine List.Pairwise.cons ?_ (List.Pairwise.cons hq hrest)
      intro x hx
      rcases List.mem_cons.mp hx with rfl | hx'
      · exact hpq
      · exact le_trans hpq (hq x hx')
    · rename_i hpq
      refine List.Pairwise.cons ?_ (ih hrest)
      intro x hx
      rcases (mem_insertByTs p x rest).mp hx with rfl | hx'
      · omega
      · exact hq x hx'

lemma sortByTs_pairwise :
    ∀ l : List TimePoint, (sortByTs l).Pairwise (fun a b => a.ts ≤ b.ts) := by
  intro l
  induction l with
  | nil => simp [sortByTs]
  | cons p rest ih => exact insertByTs_pairwise p _ ih

lemma insertByTs_length (p : TimePoint) :
    ∀ l : List TimePoint, (insertByTs p l).length = l.length + 1 := by
  intro l
  induction l with
  | nil => rfl
  | cons q rest ih =>
    simp only [insertByTs]
    split
    · simp
    · simp [ih]

lemma sortByTs_length : ∀ l : List TimePoint, (sortByTs l).length = l.length := by
  intro l
  induction l with
  | nil => rfl
  | cons p rest ih => simp [sortByTs, insertByTs_length, ih]

lemma filterMap_length_eq_filter_length {α β : Type} (f : α → Option β) :
    ∀ l : List α, (l.filterMap f).length = (l.filter (fun a => (f a).isSome)).length := by
  intro l
  induction l with
  | nil => rfl
  | cons a rest ih =>
    simp only [List.filterMap_cons, List.filter_cons]
    cases hfa : f a with
    | none => simpa [hfa] using ih
    | some b => simpa [hfa] using ih

/-- C3 counterexample: a payload carrying the timestamp 0 twice parses to a
series with two samples at timestamp 0 — the parser sorts but never
deduplicates, so "at most one sample per timestamp" fails. -/
theorem parse_series_keeps_duplicate_timestamps :
    parse_energycharts_series ⟨[0, 0], [some 1, some 2], []⟩ =
      [⟨0, 1⟩, ⟨0, 2⟩]
    ∧ ¬ (List.map TimePoint.ts
        (parse_energycharts_series ⟨[0, 0], [some 1, some 2], []⟩)).Nodup := by
  have h : parse_energycharts_series ⟨[0, 0], [some 1, some 2], []⟩ =
      [⟨0, 1⟩, ⟨0, 2⟩] := by
    norm_num [parse_energycharts_series, rawPoints, sortByTs, insertByTs,
      valueAt, List.range_succ]
  exact ⟨h, by rw [h]; decide⟩

/-- C3 amended: parse_energycharts_series always yields a series ordered
non-decreasing by timestamp, with exactly one sample per index of
`unix_seconds` that carries a non-null actual or forecast value — duplicate
timestamps are all retained (no deduplication happens; the stable sort
keeps duplicates in input order). -/
theorem parse_series_sorted_no_dedup :
    ∀ j : ECPayload,
      (parse_energycharts_series j).Pairwise (fun a b => a.ts ≤ b.ts)
      ∧ (parse_energycharts_series j).length =
        ((List.range j.unix_seconds.length).filter
          (fun i => (valueAt j.co2eq j.co2eq_forecast i).isSome)).length := by
  intro j
  constructor
  · exact sortByTs_pairwise _
  · rw [parse_energycharts_series, sortByTs_length, rawPoints,
      filterMap_length_eq_filter_length]
    congr 1
    refine List.filter_congr ?_
    intro a _
    simp [Option.isSome_map]

/-!
Helper lemmas about the fetch retry loop.
-/

/-- An attempt outcome the loop retries after: a timeout / transport error,
or a non-200 response outside the 400-499 client-error range. -/
def retryableOutcome : FetchOutcome → Prop
  | .timeout => True
  | .response s _ => s ≠ 200 ∧ ¬(400 ≤ s ∧ s < 500)

/-- An attempt outcome that aborts the loop: a client-error response
(status 400-499). -/
def clientErrorOutcome : FetchOutcome → Prop
  | .timeout => False
  | .response s _ => s ≠ 200 ∧ 400 ≤ s ∧ s < 500

lemma fetchGo_retry_step (o : ℕ → FetchOutcome) (now : ℤ)
    (c : Option (ECPayload × ℤ)) (att b : ℕ) (rest : List (ℕ × Option ℕ))
    (h : retryableOutcome (o att)) :
    fetchGo o now c ((att, some b) :: rest) =
      { result := (fetchGo o now c rest).result,
        cache := (fetchGo o now c rest).cache,
        sleeps := b :: (fetchGo o now c rest).sleeps,
        attempts := (fetchGo o now c rest).attempts + 1 } := by
  cases ho : o att with
  | timeout => simp [fetchGo, ho]
  | response s d =>
    rw [ho] at h
    obtain ⟨h200, hcl⟩ := h
    simp [fetchGo, ho, h200, hcl]

lemma fetchGo_last_fail (o : ℕ → FetchOutcome) (now : ℤ)
    (c : Option (ECPayload × ℤ)) (att : ℕ)
    (h : retryableOutcome (o att)) :
    fetchGo o now c [(att, none)] =
      { result := none, cache := c, sleeps := [], attempts := 1 } := by
  cases ho : o att with
  | timeout => simp [fetchGo, ho]
  | response s d =>
    rw [ho] at h
    obtain ⟨h200, hcl⟩ := h
    simp [fetchGo, ho, h200, hcl]

lemma fetchGo_client_abort (o : ℕ → FetchOutcome) (now : ℤ)
    (c : Option (ECPayload × ℤ)) (att : ℕ) (bo : Option ℕ)
    (rest : List (ℕ × Option ℕ)) (h : clientErrorOutcome (o att)) :
    fetchGo o now c ((att, bo) :: rest) =
      { result := none, cache := c, sleeps := [], attempts := 1 } := by
  cases ho : o att with
  | timeout => rw [ho] at h; exact absurd h (by simp [clientErrorOutcome])
  | response s d =>
    rw [ho] at h
    obtain ⟨h200, hcl⟩ := h
    simp [fetchGo, ho, h200, hcl]

lemma fetch_co2eq_series_miss (o : ℕ → FetchOutcome) (now : ℤ)
    (c : Option (ECPayload × ℤ))
    (hmiss : ∀ d t, c = some (d, t) → ¬(now - t < CACHE_MAX_AGE_SECONDS)) :
    fetch_co2eq_series o now c = fetchGo o now c attemptSchedule := by
  cases c with
  | none => rfl
  | some pr =>
    obtain ⟨d, t⟩ := pr
    simp only [fetch_co2eq_series]
    rw [if_neg (hmiss d t rfl)]

/-- C5: on a cache miss, a client-class HTTP status on any attempt (all
earlier attempts having failed retryably) returns unavailable immediately,
having made exactly that many attempts, slept only the backoffs already
due, and left the cache unchanged; and if every one of the 4 attempts
fails retryably the call returns unavailable after exactly 4 attempts with
backoff sleeps 5s, 10s, 15s and the cache unchanged. -/
theorem fetch_retry_policy (o : ℕ → FetchOutcome) (now : ℤ)
    (c : Option (ECPayload × ℤ))
    (hmiss : ∀ d t, c = some (d, t) → ¬(now - t < CACHE_MAX_AGE_SECONDS)) :
    ((∀ k, 1 ≤ k → k ≤ 4 → retryableOutcome (o k)) →
      fetch_co2eq_series o now c =
        { result := none, cache := c, sleeps := [5, 10, 15], attempts := 4 })
    ∧ (∀ j, 1 ≤ j → j ≤ 4 → clientErrorOutcome (o j) →
        (∀ k, 1 ≤ k → k < j → retryableOutcome (o k)) →
        fetch_co2eq_series o now c =
          { result := none, cache := c, sleeps := List.take (j - 1) [5, 10, 15],
            attempts := j }) := by
  rw [fetch_co2eq_series_miss o now c hmiss]
  constructor
  · intro hr
    rw [show attemptSchedule = (1, some 5) :: (2, some 10) :: (3, some 15) ::
        [(4, none)] from rfl]
    rw [fetchGo_retry_step o now c 1 5 _ (hr 1 (by norm_num) (by norm_num)),
      fetchGo_retry_step o now c 2 10 _ (hr 2 (by norm_num) (by norm_num)),
      fetchGo_retry_step o now c 3 15 _ (hr 3 (by norm_num) (by norm_num)),
      fetchGo_last_fail o now c 4 (hr 4 (by norm_num) (by norm_num))]
  · intro j hj1 hj4 hcl hr
    interval_cases j
    · rw [show attemptSchedule = (1, some 5) :: (2, some 10) :: (3, some 15) ::
          [(4, none)] from rfl]
      rw [fetchGo_client_abort o now c 1 _ _ hcl]
      simp
    · rw [show attemptSchedule = (1, some 5) :: (2, some 10) :: (3, some 15) ::
          [(4, none)] from rfl]
      rw [fetchGo_retry_step o now c 1 5 _ (hr 1 (by norm_num) (by norm_num)),
        fetchGo_client_abort o now c 2 _ _ hcl]
      simp
    · rw [show attemptSchedule = (1, some 5) :: (2, some 10) :: (3, some 15) ::
          [(4, none)] from rfl]
      rw [fetchGo_retry_step o now c 1 5 _ (hr 1 (by norm_num) (by norm_num)),
        fetchGo_retry_step o now c 2 10 _ (hr 2 (by norm_num) (by norm_num)),
        fetchGo_client_abort o now c 3 _ _ hcl]
      simp
    · rw [show attemptSchedule = (1, some 5) :: (2, some 10) :: (3, some 15) ::
          [(4, none)] from rfl]
      rw [fetchGo_retry_step o now c 1 5 _ (hr 1 (by norm_num) (by norm_num)),
        fetchGo_retry_step o now c 2 10 _ (hr 2 (by norm_num) (by norm_num)),
        fetchGo_retry_step o now c 3 15 _ (hr 3 (by norm_num) (by norm_num)),
        fetchGo_client_abort o now c 4 _ _ hcl]
      simp

/-- Witness for fetch_retry_policy: four straight timeouts starting from an
empty cache. -/
theorem fetch_retry_policy_witness :
    fetch_co2eq_series (fun _ => FetchOutcome.timeout) 0 none =
      { result := none, cache := none, sleeps := [5, 10, 15], attempts := 4 } :=
  (fetch_retry_policy (fun _ => FetchOutcome.timeout) 0 none
    (by intro d t h; cases h)).1
    (fun k _ _ => by trivial)

/-!
Helper lemmas relating the scan to the strict-improvement fold.
-/

lemma bestLoop_eq_foldBest (hourOk : ℤ → Bool) (we rt : ℤ) :
    ∀ (l : List TimePoint) (acc : Option (ℚ × ℤ)),
      bestLoop hourOk we rt l acc = foldBest (evalList hourOk we rt l) acc := by
  intro l
  induction l with
  | nil => intro acc; rfl
  | cons p rest ih =>
    intro acc
    simp only [bestLoop, evalList]
    split
    · rfl
    split
    · exact ih acc
    split
    · exact ih acc
    rcases acc with _ | ⟨ba, bs⟩
    · simp only [foldBest]
      exact ih _
    · simp only [foldBest]
      split
      · exact ih _
      · exact ih _

lemma foldBest_keep :
    ∀ (xs : List (ℚ × ℤ)) (b : ℚ × ℤ), (∀ x ∈ xs, ¬ x.1 < b.1) →
      foldBest xs (some b) = some b := by
  intro xs
  induction xs with
  | nil => intro b _; rfl
  | cons x rest ih =>
    intro b hb
    obtain ⟨ba, bs⟩ := b
    simp only [foldBest]
    split
    · exact absurd (by assumption) (hb x (by simp))
    · exact ih (ba, bs) (fun y hy => hb y (by simp [hy]))

lemma foldBest_first :
    ∀ (xs : List (ℚ × ℤ)) (i : ℕ) (hi : i < xs.length),
      (∀ x ∈ xs, (xs.get ⟨i, hi⟩).1 ≤ x.1) →
      (∀ k (hk : k < i), (xs.get ⟨i, hi⟩).1 < (xs.get ⟨k, lt_trans hk hi⟩).1) →
      ∀ b : Option (ℚ × ℤ), (∀ v, b = some v → (xs.get ⟨i, hi⟩).1 < v.1) →
      foldBest xs b = some (xs.get ⟨i, hi⟩) := by
  intro xs
  induction xs with
  | nil => intro i hi; simp at hi
  | cons x rest ih =>
    intro i hi hmin hfirst b hb
    cases i with
    | zero =>
      simp only [List.get] at hmin hfirst ⊢
      have hkeep : ∀ y ∈ rest, ¬ y.1 < x.1 := by
        intro y hy
        exact not_lt.mpr (hmin y (by simp [hy]))
      rcases b with _ | ⟨ba, bs⟩
      · simp only [foldBest]
        exact foldBest_keep rest x hkeep
      · have hx : x.1 < ba := hb (ba, bs) rfl
        simp only [foldBest]
        rw [if_pos hx]
        exact foldBest_keep rest x hkeep
    | succ k =>
      have hk : k < rest.length := by
        simpa using hi
      have hxgt : (rest.get ⟨k, hk⟩).1 < x.1 := by
        have := hfirst 0 (Nat.succ_pos k)
        simpa using this
      have hget : ((x :: rest).get ⟨k + 1, hi⟩) = rest.get ⟨k, hk⟩ := rfl
      rw [hget] at hmin hfirst ⊢
      have hmin' : ∀ y ∈ rest, (rest.get ⟨k, hk⟩).1 ≤ y.1 :=
        fun y hy => hmin y (by simp [hy])
      have hfirst' : ∀ k' (hk' : k' < k),
          (rest.get ⟨k, hk⟩).1 < (rest.get ⟨k', lt_trans hk' hk⟩).1 := by
        intro k' hk'
        have := hfirst (k' + 1) (by omega)
        simpa using this
      rcases b with _ | ⟨ba, bs⟩
      · simp only [foldBest]
        exact ih k hk hmin' hfirst' (some x)
          (fun v hv => by cases hv; exact hxgt)
      · have hba : (rest.get ⟨k, hk⟩).1 < ba := hb (ba, bs) rfl
        simp only [foldBest]
        split
        · exact ih k hk hmin' hfirst' (some x)
            (fun v hv => by cases hv; exact hxgt)
        · exact ih k hk hmin' hfirst' (some (ba, bs))
            (fun v hv => by cases hv; exact hba)

lemma evalList_nil_of_nil (hourOk : ℤ → Bool) (we rt : ℤ) :
    evalList hourOk we rt [] = [] := rfl

/-- C9: if two evaluated candidate starts achieve the same minimal mean
(the earlier one being the first to attain it), best_start_from_points
returns the earlier one, because the recorded best is replaced only on
strict improvement of the mean. -/
theorem best_start_tie_keeps_earlier
    (points : List TimePoint) (ws we rtm : ℤ) (ah : Option (ℤ × ℤ))
    (off : ℤ → ℤ) (i j : ℕ)
    (hi : i < (evalCandidates points ws we rtm ah off).length)
    (hj : j < (evalCandidates points ws we rtm ah off).length)
    (hij : i < j)
    (heq : ((evalCandidates points ws we rtm ah off).get ⟨i, hi⟩).1 =
      ((evalCandidates points ws we rtm ah off).get ⟨j, hj⟩).1)
    (hmin : ∀ x ∈ evalCandidates points ws we rtm ah off,
      ((evalCandidates points ws we rtm ah off).get ⟨i, hi⟩).1 ≤ x.1)
    (hfirst : ∀ k (hk : k < i),
      ((evalCandidates points ws we rtm ah off).get ⟨i, hi⟩).1 <
        ((evalCandidates points ws we rtm ah off).get ⟨k, lt_trans hk hi⟩).1) :
    best_start_from_points points ws we rtm ah off =
      .ok ((evalCandidates points ws we rtm ah off).get ⟨i, hi⟩).2
        (((evalCandidates points ws we rtm ah off).get ⟨i, hi⟩).2 + rtm * 60)
        ((evalCandidates points ws we rtm ah off).get ⟨i, hi⟩).1 := by
  have hfold := foldBest_first (evalCandidates points ws we rtm ah off) i hi
    hmin hfirst none (by intro v hv; cases hv)
  have hloop : bestLoop (fun t => within_allowed_hours t ah off) we (rtm * 60)
      (candidatesOf points ws we) none =
      some ((evalCandidates points ws we rtm ah off).get ⟨i, hi⟩) := by
    rw [bestLoop_eq_foldBest]
    exact hfold
  have hne : ¬ (candidatesOf points ws we).isEmpty = true := by
    intro hemp
    rw [List.isEmpty_iff] at hemp
    rw [evalCandidates, hemp, evalList_nil_of_nil] at hi
    simp at hi
  simp only [best_start_from_points]
  rw [if_neg hne, hloop]

/-- Witness for best_start_tie_keeps_earlier: candidates at 0s, 60s, 120s
with means 5, 7, 5 — the two tied minima are indices 0 and 2, and the
earlier start (timestamp 0) is returned. -/
theorem best_start_tie_keeps_earlier_witness :
    best_start_from_points [⟨0, 5⟩, ⟨60, 7⟩, ⟨120, 5⟩] 0 300 1 none
      (fun _ => 0) = .ok 0 60 5 := by
  have hE : evalCandidates [⟨0, 5⟩, ⟨60, 7⟩, ⟨120, 5⟩] 0 300 1 none
      (fun _ => 0) = [(5, 0), (7, 60), (5, 120)] := by
    norm_num [evalCandidates, evalList, candidatesOf, within_allowed_hours]
  have h0 : 0 < (evalCandidates [⟨0, 5⟩, ⟨60, 7⟩, ⟨120, 5⟩] 0 300 1 none
      (fun _ => 0)).length := by rw [hE]; norm_num
  have h2 : 2 < (evalCandidates [⟨0, 5⟩, ⟨60, 7⟩, ⟨120, 5⟩] 0 300 1 none
      (fun _ => 0)).length := by rw [hE]; norm_num
  have h := best_start_tie_keeps_earlier [⟨0, 5⟩, ⟨60, 7⟩, ⟨120, 5⟩] 0 300 1
    none (fun _ => 0) 0 2 h0 h2 (by norm_num)
    (by simp [hE])
    (by intro x hx; rw [hE] at hx; simp [hE]; fin_cases hx <;> norm_num)
    (by intro k hk; omega)
  simpa [hE] using h

/-- C2 counterexample: a primary payload that parses to an empty series
makes handle_get_best_time_raw report the raw non-OK status with source
raw and no fallback marker — it does not fall back to the secondary
provider, contradicting the claimed fallback condition. -/
theorem get_best_time_raw_no_fallback_on_empty_series :
    parse_energycharts_series ⟨[], [], []⟩ = []
    ∧ (handle_get_best_time_raw (fun _ => ("t")) (fun _ => 0)
        (some ⟨[], [], []⟩) ⟨some ("bt"), some 1, ("OK")⟩ ("s") ("e")
        0 100 60 none ("de")).source = "raw"
    ∧ (handle_get_best_time_raw (fun _ => ("t")) (fun _ => 0)
        (some ⟨[], [], []⟩) ⟨some ("bt"), some 1, ("OK")⟩ ("s") ("e")
        0 100 60 none ("de")).fallback = none
    ∧ (handle_get_best_time_raw (fun _ => ("t")) (fun _ => 0)
        (some ⟨[], [], []⟩) ⟨some ("bt"), some 1, ("OK")⟩ ("s") ("e")
        0 100 60 none ("de")).status = "No Data" := by
  refine ⟨rfl, ?_, ?_, ?_⟩ <;> rfl

/-- C2 amended: handle_get_best_time_raw falls back to the secondary
provider exactly when the primary fetch yields no payload (an empty parsed
series or a non-OK optimizer status is reported from the raw path without
fallback), while handle_get_forecast_raw falls back exactly when the
primary fetch yields no payload or the optimizer result is non-OK (which
subsumes the empty-series case); in every fallback case the result carries
fallback provenance raw_fallback_api / api and the secondary provider's
status, best time and value. -/
theorem fallback_provenance_characterization
    (iso : ℤ → String) (off : ℤ → ℤ) (primary : Option ECPayload)
    (sec : SecondaryOutcome) (ds de : String) (ws we rt : ℤ)
    (ah : Option (ℤ × ℤ)) (loc : String) :
    ((handle_get_best_time_raw iso off primary sec ds de ws we rt ah loc).fallback
        = some ("api") ↔ primary = none)
    ∧ (primary = none →
        handle_get_best_time_raw iso off primary sec ds de ws we rt ah loc =
          ⟨sec.meta_status, "raw_fallback_api", sec.best_time, sec.best_value,
            ds, de, rt, loc, some ("api")⟩)
    ∧ ((handle_get_forecast_raw iso off primary sec ds de (some ws) (some we)
          rt ah loc).1.source = "raw_fallback_api" ↔
        (primary = none ∨ ∃ raw, primary = some raw ∧
          isOkResult (best_start_from_points (parse_energycharts_series raw)
            ws we rt ah off) = false))
    ∧ (primary = none →
        handle_get_forecast_raw iso off primary sec ds de (some ws) (some we)
            rt ah loc =
          (⟨sec.meta_status, "raw_fallback_api", sec.best_value, none, rt,
            ds, de, loc, some ("api")⟩, sec.best_time, sec.best_value))
    ∧ (∀ raw, primary = some raw →
        isOkResult (best_start_from_points (parse_energycharts_series raw)
          ws we rt ah off) = false →
        handle_get_forecast_raw iso off primary sec ds de (some ws) (some we)
            rt ah loc =
          (⟨sec.meta_status, "raw_fallback_api", sec.best_value, none, rt,
            ds, de, loc, some ("api")⟩, sec.best_time, sec.best_value))
    ∧ (∀ owe, (handle_get_forecast_raw iso off primary sec ds de none owe
        rt ah loc).1.fallback = none) := by
  refine ⟨?_, ?_, ?_, ?_, ?_, ?_⟩
  · cases primary with
    | none => simp [handle_get_best_time_raw]
    | some raw =>
      simp only [handle_get_best_time_raw]
      cases hres : best_start_from_points (parse_energycharts_series raw)
          ws we rt ah off <;> simp
  · intro hp
    subst hp
    rfl
  · cases primary with
    | none => simp [handle_get_forecast_raw]
    | some raw =>
      simp only [handle_get_forecast_raw]
      cases hres : best_start_from_points (parse_energycharts_series raw)
          ws we rt ah off <;>
        simp [isOkResult, hres]
  · intro hp
    subst hp
    rfl
  · intro raw hp hnok
    subst hp
    simp only [handle_get_forecast_raw]
    cases hres : best_start_from_points (parse_energycharts_series raw)
        ws we rt ah off
    · rfl
    · rfl
    · rw [hres] at hnok
      simp [isOkResult] at hnok
  · intro owe
    rfl

/-- Witness for fallback_provenance_characterization: with no primary
payload the best-time handler reports the secondary outcome with fallback
provenance. -/
theorem fallback_provenance_witness :
    handle_get_best_time_raw (fun _ => ("t")) (fun _ => 0) none
      ⟨some ("bt"), some 1, ("OK")⟩ ("s") ("e") 0 100 60 none ("de") =
      ⟨("OK"), "raw_fallback_api", some ("bt"), some 1, ("s"), ("e"), 60,
        ("de"), some ("api")⟩ :=
  (fallback_provenance_characterization (fun _ => ("t")) (fun _ => 0) none
    ⟨some ("bt"), some 1, ("OK")⟩ ("s") ("e") 0 100 60 none ("de")).2.1 rfl

/-!
Helper lemmas about the stages of _pick_best_value.
-/

lemma valueAt_none_of (act fc : List (Option ℚ)) (k : ℕ)
    (h1 : act.getD k none = none) (h2 : fc.getD k none = none) :
    valueAt act fc k = none := by
  simp only [valueAt]
  rw [h1]
  dsimp only
  exact h2

lemma interpTry_none_of_left (us : List ℤ) (act fc : List (Option ℚ))
    (now : ℤ) (i : ℕ) (h : valueAt act fc i = none) :
    interpTry us act fc now i = none := by
  cases h2 : valueAt act fc (i + 1) <;> simp [interpTry, h, h2]

lemma interpAux_none_of (us : List ℤ) (act fc : List (Option ℚ)) (now : ℤ) :
    ∀ (fuel j : ℕ),
      (∀ k, j ≤ k → k < j + fuel → interpTry us act fc now k = none) →
      interpAux us act fc now fuel j = none := by
  intro fuel
  induction fuel with
  | zero => intro j _; rfl
  | succ f ih =>
    intro j h
    simp only [interpAux]
    rw [h j (le_refl j) (by omega)]
    exact ih (j + 1) (fun k hk1 hk2 => h k (by omega) (by omega))

lemma backActual_none_of (act : List (Option ℚ)) (us : List ℤ) :
    ∀ j, (∀ k, k ≤ j → actual_at act k = none) → backActual act us j = none := by
  intro j
  induction j with
  | zero => intro h; simp [backActual, h 0 (le_refl 0)]
  | succ n ih =>
    intro h
    simp only [backActual]
    rw [h (n + 1) (le_refl _)]
    exact ih (fun k hk => h k (by omega))

lemma fwdForecast_none_of (fc : List (Option ℚ)) (us : List ℤ) :
    ∀ (fuel j : ℕ), (∀ k, j ≤ k → k < j + fuel → forecast_at fc k = none) →
      fwdForecast fc us fuel j = none := by
  intro fuel
  induction fuel with
  | zero => intro j _; rfl
  | succ f ih =>
    intro j h
    simp only [fwdForecast]
    rw [h j (le_refl j) (by omega)]
    exact ih (j + 1) (fun k hk1 hk2 => h k (by omega) (by omega))

lemma lastScan_none_of (act fc : List (Option ℚ)) (us : List ℤ) :
    ∀ j, (∀ k, k ≤ j → actual_at act k = none ∧ forecast_at fc k = none) →
      lastScan act fc us j = none := by
  intro j
  induction j with
  | zero =>
    intro h
    simp [lastScan, (h 0 (le_refl 0)).1, (h 0 (le_refl 0)).2]
  | succ n ih =>
    intro h
    simp only [lastScan]
    rw [(h (n + 1) (le_refl _)).1, (h (n + 1) (le_refl _)).2]
    exact ih (fun k hk => h k (by omega))

lemma lastScan_none_imp (act fc : List (Option ℚ)) (us : List ℤ) :
    ∀ j, lastScan act fc us j = none →
      ∀ k, k ≤ j → actual_at act k = none ∧ forecast_at fc k = none := by
  intro j
  induction j with
  | zero =>
    intro h k hk
    interval_cases k
    simp only [lastScan] at h
    cases h1 : actual_at act 0 with
    | some v => rw [h1] at h; exact absurd h (by simp)
    | none =>
      rw [h1] at h
      cases h2 : forecast_at fc 0 with
      | some v => rw [h2] at h; exact absurd h (by simp)
      | none => exact ⟨rfl, rfl⟩
  | succ n ih =>
    intro h k hk
    simp only [lastScan] at h
    cases h1 : actual_at act (n + 1) with
    | some v => rw [h1] at h; exact absurd h (by simp)
    | none =>
      rw [h1] at h
      cases h2 : forecast_at fc (n + 1) with
      | some v => rw [h2] at h; exact absurd h (by simp)
      | none =>
        rw [h2] at h
        rcases Nat.lt_succ_iff_lt_or_eq.mp (Nat.lt_succ_of_le hk) with hlt | rfl
        · exact ih h k (by omega)
        · exact ⟨h1, h2⟩

lemma bisectGo_le_hi (a : List ℤ) (x : ℤ) :
    ∀ (fuel lo hi : ℕ), lo ≤ hi → bisectGo a x fuel lo hi ≤ hi := by
  intro fuel
  induction fuel with
  | zero => intro lo hi h; simpa [bisectGo] using h
  | succ f ih =>
    intro lo hi h
    simp only [bisectGo]
    split
    · split
      · exact le_trans (ih lo ((lo + hi) / 2) (by omega)) (by omega)
      · exact ih ((lo + hi) / 2 + 1) hi (by omega)
    · exact h

lemma bisect_right_le (a : List ℤ) (x : ℤ) : bisect_right a x ≤ a.length :=
  bisectGo_le_hi a x a.length 0 a.length (Nat.zero_le _)

/-- C7: _pick_best_value returns no usable value exactly when the series is
empty or no index of it has a non-null actual or forecast value; whenever
any non-null value exists somewhere, a (value, timestamp, provenance,
index) quadruple is returned. -/
theorem pick_best_value_none_iff_no_values :
    ∀ (us : List ℤ) (act fc : List (Option ℚ)) (now : ℤ),
      pick_best_value us act fc now = none ↔
        (us = [] ∨ ∀ j, j < us.length →
          act.getD j none = none ∧ fc.getD j none = none) := by
  intro us act fc now
  by_cases hn : us.length = 0
  · have hus : us = [] := List.length_eq_zero.mp hn
    subst hus
    simp [pick_best_value]
  · constructor
    · intro h
      right
      simp only [pick_best_value, if_neg hn] at h
      split at h
      · exact absurd h (by simp)
      split at h
      · exact absurd h (by simp)
      split at h
      · exact absurd h (by simp)
      split at h
      · exact absurd h (by simp)
      intro k hk
      have hall := lastScan_none_imp act fc us (us.length - 1) h k (by omega)
      refine ⟨?_, ?_⟩
      · have := hall.1
        rwa [actual_at, Option.map_eq_none'] at this
      · have := hall.2
        rwa [forecast_at, Option.map_eq_none'] at this
    · intro h
      rcases h with hus | hall
      · subst hus; simp at hn
      have hble := bisect_right_le us now
      have h1 : interpAux us act fc now (us.length - 1) 0 = none := by
        refine interpAux_none_of us act fc now _ 0 (fun k hk1 hk2 => ?_)
        exact interpTry_none_of_left us act fc now k
          (valueAt_none_of act fc k (hall k (by omega)).1 (hall k (by omega)).2)
      have h2 : (if 0 ≤ (bisect_right us now : ℤ) - 1 then
          backActual act us ((bisect_right us now : ℤ) - 1).toNat else none)
          = none := by
        split
        · refine backActual_none_of act us _ (fun k hk => ?_)
          have hkn : k < us.length := by omega
          simp only [actual_at, Option.map_eq_none']
          exact (hall k hkn).1
        · rfl
      have h3 : fwdForecast fc us
          (us.length - ((bisect_right us now : ℤ) - 1).toNat)
          ((bisect_right us now : ℤ) - 1).toNat = none := by
        refine fwdForecast_none_of fc us _ _ (fun k hk1 hk2 => ?_)
        have hkn : k < us.length := by omega
        simp only [forecast_at, Option.map_eq_none']
        exact (hall k hkn).2
      have h4 : (if (bisect_right us now : ℤ) - 1 < 0 then
          fwdForecast fc us us.length 0 else none) = none := by
        split
        · refine fwdForecast_none_of fc us _ _ (fun k hk1 hk2 => ?_)
          have hkn : k < us.length := by omega
          simp only [forecast_at, Option.map_eq_none']
          exact (hall k hkn).2
        · rfl
      have h5 : lastScan act fc us (us.length - 1) = none := by
        refine lastScan_none_of act fc us _ (fun k hk => ?_)
        have hkn : k < us.length := by omega
        refine ⟨?_, ?_⟩
        · simp only [actual_at, Option.map_eq_none']
          exact (hall k hkn).1
        · simp only [forecast_at, Option.map_eq_none']
          exact (hall k hkn).2
      simp only [pick_best_value, if_neg hn]
      rw [h1]
      dsimp only
      rw [h2]
      dsimp only
      rw [h3]
      dsimp only
      rw [h4]
      dsimp only
      exact h5

/-- Witness for pick_best_value_none_iff_no_values at a concrete input. -/
theorem pick_best_value_none_witness :
    pick_best_value [7] [none] [none] 3 = none :=
  (pick_best_value_none_iff_no_values [7] [none] [none] 3).mpr
    (Or.inr (by decide))

/-!
Helper lemmas about sorted timestamp access and the binary search.
-/

lemma sorted_getD_le (us : List ℤ) (hs : us.Pairwise (· ≤ ·)) (i j : ℕ)
    (hij : i ≤ j) (hj : j < us.length) : us.getD i 0 ≤ us.getD j 0 := by
  rcases Nat.lt_or_ge i j with hlt | hge
  · rw [List.getD_eq_getElem us 0 (lt_of_le_of_lt hij hj),
      List.getD_eq_getElem us 0 hj]
    have h := List.pairwise_iff_get.mp hs ⟨i, lt_of_le_of_lt hij hj⟩ ⟨j, hj⟩ hlt
    simpa [List.get_eq_getElem] using h
  · have heq : i = j := by omega
    subst heq
    exact le_refl _

lemma sorted_getD_lt (us : List ℤ) (hs : us.Pairwise (· < ·)) (i j : ℕ)
    (hij : i < j) (hj : j < us.length) : us.getD i 0 < us.getD j 0 := by
  rw [List.getD_eq_getElem us 0 (lt_trans hij hj), List.getD_eq_getElem us 0 hj]
  have h := List.pairwise_iff_get.mp hs ⟨i, lt_trans hij hj⟩ ⟨j, hj⟩ hij
  simpa [List.get_eq_getElem] using h

lemma bisectGo_spec (a : List ℤ) (x : ℤ) (hs : a.Pairwise (· ≤ ·)) :
    ∀ (fuel lo hi : ℕ), lo ≤ hi → hi ≤ a.length → hi - lo ≤ fuel →
      (∀ k, k < lo → a.getD k 0 ≤ x) →
      (∀ k, hi ≤ k → k < a.length → x < a.getD k 0) →
      (∀ k, k < bisectGo a x fuel lo hi → a.getD k 0 ≤ x) ∧
      (∀ k, bisectGo a x fuel lo hi ≤ k → k < a.length → x < a.getD k 0) := by
  intro fuel
  induction fuel with
  | zero =>
    intro lo hi hlh hhl hfuel hlow hhigh
    have heq : lo = hi := by omega
    subst heq
    simp only [bisectGo]
    exact ⟨hlow, hhigh⟩
  | succ f ih =>
    intro lo hi hlh hhl hfuel hlow hhigh
    simp only [bisectGo]
    split
    · rename_i hlt
      split
      · rename_i hxmid
        refine ih lo ((lo + hi) / 2) (by omega) (by omega) (by omega) hlow ?_
        intro k hk1 hk2
        exact lt_of_lt_of_le hxmid (sorted_getD_le a hs _ k hk1 hk2)
      · rename_i hxmid
        push_neg at hxmid
        refine ih ((lo + hi) / 2 + 1) hi (by omega) hhl (by omega) ?_ hhigh
        intro k hk
        have hkm : k ≤ (lo + hi) / 2 := by omega
        exact le_trans (sorted_getD_le a hs k _ hkm (by omega)) hxmid
    · rename_i hnlt
      have heq : lo = hi := by omega
      subst heq
      exact ⟨hlow, hhigh⟩

lemma bisect_right_bounds (a : List ℤ) (x : ℤ) (hs : a.Pairwise (· ≤ ·)) :
    (∀ k, k < bisect_right a x → a.getD k 0 ≤ x) ∧
    (∀ k, bisect_right a x ≤ k → k < a.length → x < a.getD k 0) :=
  bisectGo_spec a x hs a.length 0 a.length (Nat.zero_le _) (le_refl _)
    (by omega) (fun k hk => absurd hk (Nat.not_lt_zero k))
    (fun k hk1 hk2 => absurd (lt_of_le_of_lt hk1 hk2) (lt_irrefl _))

lemma bisect_at_sample (us : List ℤ) (hs : us.Pairwise (· < ·)) (i : ℕ)
    (hi : i < us.length) : bisect_right us (us.getD i 0) = i + 1 := by
  have hle : us.Pairwise (· ≤ ·) := hs.imp (fun h => le_of_lt h)
  obtain ⟨hlow, hhigh⟩ := bisect_right_bounds us (us.getD i 0) hle
  rcases Nat.lt_trichotomy (bisect_right us (us.getD i 0)) (i + 1) with hlt | heq | hgt
  · have := hhigh i (by omega) hi
    omega
  · exact heq
  · have hble := bisect_right_le us (us.getD i 0)
    have hi1 : i + 1 < us.length := by omega
    have h1 := hlow (i + 1) (by omega)
    have h2 := sorted_getD_lt us hs i (i + 1) (by omega) hi1
    omega

/-!
Helper lemmas about interpolation hits and misses.
-/

lemma interpAux_some_of (us : List ℤ) (act fc : List (Option ℚ)) (now : ℤ) :
    ∀ (fuel j m : ℕ) (r : ℚ × ℤ × String × ℕ), j ≤ m → m < j + fuel →
      interpTry us act fc now m = some r →
      (∀ k, j ≤ k → k < m → interpTry us act fc now k = none) →
      interpAux us act fc now fuel j = some r := by
  intro fuel
  induction fuel with
  | zero => intro j m r h1 h2 _ _; omega
  | succ f ih =>
    intro j m r hjm hmf htry hnone
    simp only [interpAux]
    by_cases hj : j = m
    · subst hj
      rw [htry]
    · rw [hnone j (le_refl j) (by omega)]
      exact ih (j + 1) m r (by omega) (by omega) htry
        (fun k hk1 hk2 => hnone k (by omega) hk2)

lemma interpTry_none_time (us : List ℤ) (act fc : List (Option ℚ))
    (now : ℤ) (k : ℕ)
    (h : ¬ (us.getD k 0 ≤ now ∧ now < us.getD (k + 1) 0)) :
    interpTry us act fc now k = none := by
  simp only [interpTry]
  cases hv0 : valueAt act fc k with
  | none => cases valueAt act fc (k + 1) <;> rfl
  | some v0 =>
    cases hv1 : valueAt act fc (k + 1) with
    | none => rfl
    | some v1 =>
      dsimp only
      rw [if_neg h]

lemma interpTry_none_right (us : List ℤ) (act fc : List (Option ℚ))
    (now : ℤ) (k : ℕ) (h : valueAt act fc (k + 1) = none) :
    interpTry us act fc now k = none := by
  simp only [interpTry, h]
  cases valueAt act fc k <;> rfl

lemma interpTry_eval (us : List ℤ) (act fc : List (Option ℚ)) (now : ℤ)
    (i : ℕ) (v w : ℚ) (hv0 : valueAt act fc i = some v)
    (hv1 : valueAt act fc (i + 1) = some w)
    (h : us.getD i 0 ≤ now ∧ now < us.getD (i + 1) 0) :
    interpTry us act fc now i =
      some (round2 (v + (w - v) * (((now : ℚ) - (us.getD i 0 : ℚ)) /
        ((us.getD (i + 1) 0 : ℚ) - (us.getD i 0 : ℚ)))), now, "interpolated", i) := by
  simp only [interpTry, hv0, hv1]
  rw [if_pos h]

lemma backActual_hit (act : List (Option ℚ)) (us : List ℤ) (j : ℕ) (v : ℚ)
    (h : actual_at act j = some v) :
    backActual act us j = some (v, us.getD j 0, "actual", j) := by
  cases j <;> simp [backActual, h]

lemma fwdForecast_hit (fc : List (Option ℚ)) (us : List ℤ) (f j : ℕ) (v : ℚ)
    (h : forecast_at fc j = some v) :
    fwdForecast fc us (f + 1) j = some (v, us.getD j 0, "forecast", j) := by
  simp [fwdForecast, h]

/-- C6 counterexample: for now exactly at sample 0 of the series
[(0, 100), (3600, 200)], _pick_best_value returns the sample value but with
provenance interpolated (the interpolation guard `t0 <= now_ts` admits the
exact hit and runs with fraction 0), not actual or forecast as claimed. -/
theorem pick_best_value_interpolated_at_exact_sample :
    pick_best_value [0, 3600] [some 100, some 200] [] 0 =
      some (100, 0, "interpolated", 0)
    ∧ ("interpolated" : String) ≠ "actual"
    ∧ ("interpolated" : String) ≠ "forecast" := by
  refine ⟨?_, by decide, by decide⟩
  norm_num [pick_best_value, interpAux, interpTry, valueAt, round2]

/-- C6 amended: over a strictly increasing series, for `now` exactly at
sample i the resolver returns that sample's value rounded to 2 decimals,
but the provenance is interpolated whenever the next sample exists and has
a usable value (the interpolation branch admits the exact hit with
fraction 0); only when no such bracketing pair exists does it return the
value with provenance actual (actual value present at i) or forecast
(no actual value at or before i, forecast present at i).  For `now`
strictly between two bracketing usable samples it returns the rounded
linear interpolation.  -/
theorem pick_best_value_exact_and_between
    (us : List ℤ) (act fc : List (Option ℚ)) (now : ℤ) (i : ℕ)
    (hi : i < us.length) (hsorted : us.Pairwise (· < ·)) (v w : ℚ) :
    ((now = us.getD i 0 ∧ i + 1 < us.length ∧ valueAt act fc i = some v ∧
        valueAt act fc (i + 1) = some w) →
      pick_best_value us act fc now = some (round2 v, now, "interpolated", i))
    ∧ ((now = us.getD i 0 ∧ (i + 1 = us.length ∨ valueAt act fc (i + 1) = none) ∧
        actual_at act i = some v) →
      pick_best_value us act fc now = some (v, us.getD i 0, "actual", i))
    ∧ ((now = us.getD i 0 ∧ (i + 1 = us.length ∨ valueAt act fc (i + 1) = none) ∧
        (∀ k, k ≤ i → actual_at act k = none) ∧ forecast_at fc i = some v) →
      pick_best_value us act fc now = some (v, us.getD i 0, "forecast", i))
    ∧ ((i + 1 < us.length ∧ us.getD i 0 < now ∧ now < us.getD (i + 1) 0 ∧
        valueAt act fc i = some v ∧ valueAt act fc (i + 1) = some w) →
      pick_best_value us act fc now =
        some (round2 (v + (w - v) * (((now : ℚ) - (us.getD i 0 : ℚ)) /
          ((us.getD (i + 1) 0 : ℚ) - (us.getD i 0 : ℚ)))), now,
          "interpolated", i)) := by
  have hn : ¬ (us.length = 0) := by omega
  have hle : us.Pairwise (· ≤ ·) := hsorted.imp (fun h => le_of_lt h)
  refine ⟨?_, ?_, ?_, ?_⟩
  · rintro ⟨hnow, hi1, hv, hw⟩
    have hearly : ∀ k, k < i → interpTry us act fc now k = none := by
      intro k hk
      apply interpTry_none_time
      rintro ⟨-, hlt⟩
      have hks := sorted_getD_le us hle (k + 1) i (by omega) hi
      omega
    have hcond : us.getD i 0 ≤ now ∧ now < us.getD (i + 1) 0 := by
      have hlt := sorted_getD_lt us hsorted i (i + 1) (by omega) hi1
      omega
    have htry := interpTry_eval us act fc now i v w hv hw hcond
    have haux := interpAux_some_of us act fc now (us.length - 1) 0 i _
      (Nat.zero_le i) (by omega) htry (fun k _ hk => hearly k hk)
    simp only [pick_best_value, if_neg hn]
    rw [haux]
    dsimp only
    rw [hnow]
    norm_num
  · rintro ⟨hnow, hnext, hv⟩
    have hint : interpAux us act fc now (us.length - 1) 0 = none := by
      refine interpAux_none_of us act fc now _ 0 (fun k hk0 hkf => ?_)
      rcases Nat.lt_trichotomy k i with hk | heqk | hk
      · apply interpTry_none_time
        rintro ⟨-, hlt⟩
        have hks := sorted_getD_le us hle (k + 1) i (by omega) hi
        omega
      · subst heqk
        rcases hnext with hlen | hvn
        · omega
        · exact interpTry_none_right us act fc now k hvn
      · apply interpTry_none_time
        rintro ⟨hge, -⟩
        have hks := sorted_getD_lt us hsorted i k hk (by omega)
        omega
    have hbr : bisect_right us now = i + 1 := by
      rw [hnow]
      exact bisect_at_sample us hsorted i hi
    simp only [pick_best_value, if_neg hn]
    rw [hint]
    dsimp only
    rw [hbr]
    have hi0 : (0 : ℤ) ≤ ((i + 1 : ℕ) : ℤ) - 1 := by push_cast; omega
    rw [if_pos hi0]
    have htn : (((i + 1 : ℕ) : ℤ) - 1).toNat = i := by omega
    rw [htn]
    rw [backActual_hit act us i v hv]
  · rintro ⟨hnow, hnext, hacts, hfc⟩
    have hint : interpAux us act fc now (us.length - 1) 0 = none := by
      refine interpAux_none_of us act fc now _ 0 (fun k hk0 hkf => ?_)
      rcases Nat.lt_trichotomy k i with hk | heqk | hk
      · apply interpTry_none_time
        rintro ⟨-, hlt⟩
        have hks := sorted_getD_le us hle (k + 1) i (by omega) hi
        omega
      · subst heqk
        rcases hnext with hlen | hvn
        · omega
        · exact interpTry_none_right us act fc now k hvn
      · apply interpTry_none_time
        rintro ⟨hge, -⟩
        have hks := sorted_getD_lt us hsorted i k hk (by omega)
        omega
    have hbr : bisect_right us now = i + 1 := by
      rw [hnow]
      exact bisect_at_sample us hsorted i hi
    simp only [pick_best_value, if_neg hn]
    rw [hint]
    dsimp only
    rw [hbr]
    have hi0 : (0 : ℤ) ≤ ((i + 1 : ℕ) : ℤ) - 1 := by push_cast; omega
    rw [if_pos hi0]
    have htn : (((i + 1 : ℕ) : ℤ) - 1).toNat = i := by omega
    rw [htn]
    rw [backActual_none_of act us i (fun k hk => hacts k hk)]
    dsimp only
    have hf : us.length - i = (us.length - i - 1) + 1 := by omega
    rw [hf]
    rw [fwdForecast_hit fc us _ i v hfc]
  · rintro ⟨hi1, hgt, hlt, hv, hw⟩
    have hearly : ∀ k, k < i → interpTry us act fc now k = none := by
      intro k hk
      apply interpTry_none_time
      rintro ⟨-, hlt2⟩
      have hks := sorted_getD_le us hle (k + 1) i (by omega) hi
      omega
    have htry := interpTry_eval us act fc now i v w hv hw ⟨le_of_lt hgt, hlt⟩
    have haux := interpAux_some_of us act fc now (us.length - 1) 0 i _
      (Nat.zero_le i) (by omega) htry (fun k _ hk => hearly k hk)
    simp only [pick_best_value, if_neg hn]
    rw [haux]

/-- Witness for pick_best_value_exact_and_between: now strictly between
samples 0s (value 100) and 3600s (value 200) interpolates to 150. -/
theorem pick_best_value_between_witness :
    pick_best_value [0, 3600] [some 100, none] [none, some 200] 1800 =
      some (150, 1800, "interpolated", 0) := by
  have h := (pick_best_value_exact_and_between [0, 3600]
    [some 100, none] [none, some 200] 1800 0 (by norm_num) (by decide)
    100 200).2.2.2 ⟨by norm_num, by decide, by decide, by decide, by decide⟩
  rw [h]
  norm_num [round2]
